import Mathlib

/-!
Shallow embedding of the `terminal-project` shell's command-execution engine
(`src/parser.c`, `src/executor.c`, `src/builtins.c`) and proofs about it.

Conventions of the embedding:
* C strings / argument vectors become `String` / `List String`.
* The process-wide descriptor table becomes an association list `fd ↦ ofd`
  (`ofd` is an abstract id of an open file description); `dup`, `dup2`,
  `open`, `close` act on it exactly as the corresponding system calls do.
* Fallible system calls consult an oracle `orc : Nat → Bool`, indexed by the
  number of system operations performed so far, so every success/failure
  interleaving the kernel could produce is represented by some oracle.
* Every system operation is recorded in an event trace (`St.ops`), and every
  `perror`/`fprintf(stderr, ...)` diagnostic in `St.errs`.
-/

namespace Shell

/-! ### Tokenizer (`src/parser.c`, `parse_input`; `DELIMITERS` from `src/shell.h`) -/

/-- `#define DELIMITERS " \t\r\n\a"` from `src/shell.h` (`\a` is `'\x07'`). -/
def DELIMITERS : List Char := [' ', '\t', '\r', '\n', '\x07']

/-- Whether a character is one of the `strtok` delimiters. -/
def isDelim (c : Char) : Bool := DELIMITERS.contains c

/-- The `strtok` loop of `parse_input`: a single left-to-right pass that
collects maximal runs of non-delimiter characters (the accumulator holds the
current run, in reverse). This is exactly the sequence of tokens `strtok`
yields for the line. -/
def tokenize_aux : List Char → List Char → List (List Char)
  | [], acc => if acc = [] then [] else [acc.reverse]
  | c :: cs, acc =>
    if isDelim c then
      if acc = [] then tokenize_aux cs []
      else acc.reverse :: tokenize_aux cs []
    else tokenize_aux cs (c :: acc)

/-- `parse_input` from `src/parser.c`: tokenize the raw line on `DELIMITERS`.
(The dynamic buffer growth of the C code is memory management only; allocation
failure is fatal and outside the model.) -/
def parse_input (line : List Char) : List (List Char) := tokenize_aux line []

theorem tokenize_aux_sound (line : List Char) :
    ∀ acc, (∀ c ∈ acc, isDelim c = false) →
      ∀ tok ∈ tokenize_aux line acc, tok ≠ [] ∧ ∀ c ∈ tok, isDelim c = false := by
  induction line with
  | nil =>
    intro acc hacc tok htok
    by_cases h : acc = []
    · simp [tokenize_aux, h] at htok
    · simp [tokenize_aux, h] at htok
      subst htok
      refine ⟨by simpa using h, ?_⟩
      intro c hc
      exact hacc c (List.mem_reverse.mp hc)
  | cons c cs ih =>
    intro acc hacc tok htok
    by_cases hd : isDelim c
    · by_cases h : acc = []
      · rw [tokenize_aux, if_pos hd, if_pos h] at htok
        exact ih [] (by simp) tok htok
      · rw [tokenize_aux, if_pos hd, if_neg h] at htok
        rcases List.mem_cons.mp htok with h1 | h1
        · subst h1
          refine ⟨by simpa using h, ?_⟩
          intro x hx
          exact hacc x (List.mem_reverse.mp hx)
        · exact ih [] (by simp) tok h1
    · rw [tokenize_aux, if_neg hd] at htok
      refine ih (c :: acc) ?_ tok htok
      intro x hx
      rcases List.mem_cons.mp hx with h1 | h1
      · subst h1; simpa using hd
      · exact hacc x h1

theorem tokenize_aux_all_delim (line : List Char) (h : ∀ c ∈ line, isDelim c = true) :
    tokenize_aux line [] = [] := by
  induction line with
  | nil => rfl
  | cons c cs ih =>
    have hc : isDelim c = true := h c (by simp)
    rw [tokenize_aux, if_pos hc, if_pos rfl]
    exact ih (fun x hx => h x (List.mem_cons_of_mem _ hx))

/-- Claim C7: the tokenizer splits on runs of the whitespace delimiters
(space, tab, carriage return, newline, bell), yielding non-empty,
delimiter-free tokens; an all-whitespace (or empty) line yields the empty
argument list; and `"ls  -la   /tmp"` tokenizes to `["ls","-la","/tmp"]`
regardless of the internal run lengths. -/
theorem C7_tokenizer_whitespace_split :
    (∀ line : List Char, ∀ tok ∈ parse_input line,
        tok ≠ [] ∧ ∀ c ∈ tok, isDelim c = false)
    ∧ (∀ line : List Char, (∀ c ∈ line, isDelim c = true) → parse_input line = [])
    ∧ parse_input "ls  -la   /tmp".toList = ["ls".toList, "-la".toList, "/tmp".toList] := by
  refine ⟨?_, ?_, by decide⟩
  · intro line tok htok
    exact tokenize_aux_sound line [] (by simp) tok htok
  · intro line h
    exact tokenize_aux_all_delim line h

/-- Witness for C7 at concrete inputs: the token of `"a"` is non-empty and
delimiter-free, and the all-whitespace line `"  \t "` yields no tokens. -/
theorem C7_tokenizer_whitespace_split_witness :
    (['a'] ≠ [] ∧ ∀ c ∈ ['a'], isDelim c = false) ∧ parse_input "  \t ".toList = [] :=
  ⟨C7_tokenizer_whitespace_split.1 "a".toList ['a'] (by decide),
   C7_tokenizer_whitespace_split.2.1 "  \t ".toList (by decide)⟩

/-! ### System-call state model

The descriptor table maps file descriptors (`Nat`) to abstract open file
descriptions (`Nat`).  Every system operation performed by the executor is
recorded in an event trace; diagnostics printed by `perror` / `fprintf(stderr,…)`
are recorded in `errs`. -/

/-- One recorded system operation (with its outcome where the call can fail). -/
inductive SysOp where
  | openIn (path : Option String) (ok : Bool)
  | openOut (path : Option String) (ok : Bool)
  | dup (fd : Nat)
  | dup2 (src dst : Nat)
  | closeFd (fd : Nat)
  | pipeCreate (ok : Bool)
  | fork (ok : Bool)
  | exec (prog : String) (ok : Bool)
  | wait
  | chdir (dir : String) (ok : Bool)
  | fopen (path : String) (write : Bool) (ok : Bool)
  | fcloseOp (fd : Nat)
  | renameOp (src dst : String) (ok : Bool)
  | removeOp (path : String) (ok : Bool)
  deriving DecidableEq

/-- Process state: descriptor table, fresh-descriptor counters, the event
trace and the diagnostic (stderr) trace. -/
structure St where
  fdt : List (Nat × Nat)
  nextFd : Nat
  nextOfd : Nat
  ops : List SysOp
  errs : List String
  deriving DecidableEq

/-- Record one system operation in the trace. -/
def St.record (s : St) (o : SysOp) : St := { s with ops := s.ops ++ [o] }

/-- `perror` / `fprintf(stderr, …)`: record a diagnostic message. -/
def St.perror (s : St) (m : String) : St := { s with errs := s.errs ++ [m] }

/-- Remove a descriptor from the table (the effect of `close`). -/
def fdRemove (t : List (Nat × Nat)) (fd : Nat) : List (Nat × Nat) :=
  t.filter (fun p => p.1 != fd)

/-- Rebind a descriptor (the effect of a successful `dup2` on its target). -/
def fdSet (t : List (Nat × Nat)) (fd ofd : Nat) : List (Nat × Nat) :=
  (fd, ofd) :: fdRemove t fd

/-- `open(path, O_RDONLY)`: allocates a fresh descriptor on success, returns
`none` for `-1` on failure.  A `none` path models the out-of-bounds read of
the terminator after a trailing operator; that call always fails (`EFAULT`). -/
def sysOpenIn (orc : Nat → Bool) (path : Option String) (s : St) : Option Nat × St :=
  let ok := path.isSome && orc s.ops.length
  let s := s.record (.openIn path ok)
  if ok then
    (some s.nextFd,
     { s with fdt := (s.nextFd, s.nextOfd) :: s.fdt,
              nextFd := s.nextFd + 1, nextOfd := s.nextOfd + 1 })
  else (none, s)

/-- `open(path, O_WRONLY | O_CREAT | O_TRUNC, 0644)`, as `sysOpenIn`. -/
def sysOpenOut (orc : Nat → Bool) (path : Option String) (s : St) : Option Nat × St :=
  let ok := path.isSome && orc s.ops.length
  let s := s.record (.openOut path ok)
  if ok then
    (some s.nextFd,
     { s with fdt := (s.nextFd, s.nextOfd) :: s.fdt,
              nextFd := s.nextFd + 1, nextOfd := s.nextOfd + 1 })
  else (none, s)

/-- `dup(fd)`: a fresh descriptor for the same open file description. -/
def sysDup (fd : Nat) (s : St) : Option Nat × St :=
  let s := s.record (.dup fd)
  match s.fdt.lookup fd with
  | some ofd => (some s.nextFd, { s with fdt := (s.nextFd, ofd) :: s.fdt, nextFd := s.nextFd + 1 })
  | none => (none, s)

/-- `dup2(src, dst)`: rebind `dst` to `src`'s open file description
(no effect when `src` is not open — `EBADF`). -/
def sysDup2 (src dst : Nat) (s : St) : St :=
  let s := s.record (.dup2 src dst)
  match s.fdt.lookup src with
  | some ofd => { s with fdt := fdSet s.fdt dst ofd }
  | none => s

/-- `close(fd)`. -/
def sysClose (fd : Nat) (s : St) : St :=
  let s := s.record (.closeFd fd)
  { s with fdt := fdRemove s.fdt fd }

/-- The all-successes oracle. -/
def orcT : Nat → Bool := fun _ => true

/-- The dispatcher's initial state: fd `0` (stdin) and fd `1` (stdout) bound
to the terminal's open file descriptions `0` and `1`; fd `2` is stderr, so
fresh descriptors start at `3`. -/
def initSt : St := { fdt := [(0, 0), (1, 1)], nextFd := 3, nextOfd := 2, ops := [], errs := [] }

/-! ### Redirection resolver (`src/executor.c`, `handle_redirection`) -/

/-- Result of `handle_redirection`: the argument array after the in-place
`args[i] = NULL` truncations (`none` is `NULL`), the two descriptor
out-parameters (`none` is `-1`), and the state. -/
structure RedirResult where
  arr : List (Option String)
  in_fd : Option Nat
  out_fd : Option Nat
  st : St
  deriving DecidableEq

/-- `handle_redirection` from `src/executor.c`.  The C loop scans every
position of the original array (the `args[i] = NULL` writes only touch
positions already passed), so each `">"`/`"<"` token opens the token that
follows it (`rest.head?`; `none` is the terminating `NULL` for a trailing
operator) and is itself overwritten with `NULL`.  A failed `open` stores
`-1` in the corresponding out-parameter and reports via `perror`. -/
def handle_redirection (orc : Nat → Bool) :
    List String → Option Nat → Option Nat → St → RedirResult
  | [], i, o, s => ⟨[], i, o, s⟩
  | a :: rest, i, o, s =>
    if a = ">" then
      let p := sysOpenOut orc rest.head? s
      let s1 := if p.1.isNone then p.2.perror "shell" else p.2
      let r := handle_redirection orc rest i p.1 s1
      ⟨none :: r.arr, r.in_fd, r.out_fd, r.st⟩
    else if a = "<" then
      let p := sysOpenIn orc rest.head? s
      let s1 := if p.1.isNone then p.2.perror "shell" else p.2
      let r := handle_redirection orc rest p.1 o s1
      ⟨none :: r.arr, r.in_fd, r.out_fd, r.st⟩
    else
      let r := handle_redirection orc rest i o s
      ⟨some a :: r.arr, r.in_fd, r.out_fd, r.st⟩

/-- The argument vector a subsequent `execvp(args[0], args)` actually sees:
the entries of the (mutated) array up to its first `NULL`. -/
def argvSeen (arr : List (Option String)) : List String :=
  (arr.takeWhile (fun x => x.isSome)).filterMap id

/-- Whether a token is one of the two redirection operators. -/
def isRedirOp (a : String) : Bool := a == ">" || a == "<"

/-- Claim C9: the resolver truncates the argument list at the first
redirection operator — the launched program receives exactly the tokens
preceding the first `<` or `>`, and nothing at or after it (operator,
filename, or later ordinary tokens). -/
theorem C9_truncation_at_first_operator (orc : Nat → Bool) (args : List String)
    (i o : Option Nat) (s : St) :
    argvSeen (handle_redirection orc args i o s).arr
      = args.takeWhile (fun a => !isRedirOp a) := by
  induction args generalizing i o s with
  | nil => rfl
  | cons a rest ih =>
    by_cases hgt : a = ">"
    · subst hgt
      rw [handle_redirection]
      simp only [if_pos rfl]
      simp [argvSeen, isRedirOp]
    · by_cases hlt : a = "<"
      · subst hlt
        rw [handle_redirection]
        simp only [if_neg (by decide : ¬("<" : String) = ">"), if_pos rfl]
        simp [argvSeen, isRedirOp]
      · rw [handle_redirection]
        simp only [if_neg hgt, if_neg hlt]
        have hop : isRedirOp a = false := by
          simp [isRedirOp, hgt, hlt]
        have step : ∀ l, argvSeen (some a :: l) = a :: argvSeen l := by
          intro l; simp [argvSeen]
        rw [step, ih]
        simp [List.takeWhile_cons, hop]

theorem isRedirOp_eq_false {a : String} (h : isRedirOp a = false) : ¬a = ">" ∧ ¬a = "<" := by
  constructor <;> intro hc <;> subst hc <;> simp [isRedirOp] at h

theorem hr_append_clean (orc : Nat → Bool) (pre l2 : List String)
    (h : ∀ a ∈ pre, isRedirOp a = false) (i o : Option Nat) (s : St) :
    handle_redirection orc (pre ++ l2) i o s =
      ⟨pre.map some ++ (handle_redirection orc l2 i o s).arr,
       (handle_redirection orc l2 i o s).in_fd,
       (handle_redirection orc l2 i o s).out_fd,
       (handle_redirection orc l2 i o s).st⟩ := by
  induction pre with
  | nil => rfl
  | cons a pre ih =>
    obtain ⟨h1, h2⟩ := isRedirOp_eq_false (h a (by simp))
    rw [List.cons_append, handle_redirection, if_neg h1, if_neg h2,
      ih (fun x hx => h x (List.mem_cons_of_mem _ hx))]
    rfl

/-- Counterexample to claim C3: on `["cat", ">", "out.txt", "x"]` the claim
says the program receives every token other than the operator+filename pair,
i.e. `["cat", "x"]`; the resolver actually truncates at the operator and the
program receives only `["cat"]`. -/
theorem C3_counterexample_token_after_filename_dropped :
    argvSeen (handle_redirection orcT ["cat", ">", "out.txt", "x"] none none initSt).arr
        = ["cat"]
    ∧ argvSeen (handle_redirection orcT ["cat", ">", "out.txt", "x"] none none initSt).arr
        ≠ ["cat", "x"] := by
  refine ⟨by decide, ?_⟩
  intro h
  exact absurd h (by decide)

theorem argvSeen_cons_some (a : String) (l : List (Option String)) :
    argvSeen (some a :: l) = a :: argvSeen l := by
  simp [argvSeen]

theorem argvSeen_cons_none (l : List (Option String)) : argvSeen (none :: l) = [] := rfl

theorem argvSeen_map_some_append (pre : List String) (l : List (Option String)) :
    argvSeen (pre.map some ++ l) = pre ++ argvSeen l := by
  induction pre with
  | nil => rfl
  | cons a pre ih => rw [List.map_cons, List.cons_append, argvSeen_cons_some, ih]; rfl

theorem hr_gt_pair (orc : Nat → Bool) (f : String) (hf1 : ¬f = ">") (hf2 : ¬f = "<")
    (i o : Option Nat) (s : St) :
    handle_redirection orc [">", f] i o s =
      ⟨[none, some f], i, (sysOpenOut orc (some f) s).1,
        if (sysOpenOut orc (some f) s).1.isNone
          then (sysOpenOut orc (some f) s).2.perror "shell"
          else (sysOpenOut orc (some f) s).2⟩ := by
  simp [handle_redirection, hf1, hf2]

theorem hr_lt_pair (orc : Nat → Bool) (f : String) (hf1 : ¬f = ">") (hf2 : ¬f = "<")
    (i o : Option Nat) (s : St) :
    handle_redirection orc ["<", f] i o s =
      ⟨[none, some f], (sysOpenIn orc (some f) s).1, o,
        if (sysOpenIn orc (some f) s).1.isNone
          then (sysOpenIn orc (some f) s).2.perror "shell"
          else (sysOpenIn orc (some f) s).2⟩ := by
  simp [handle_redirection, hf1, hf2]

/-- Claim C3 as amended: when the redirection operator and its filename are
the *final two tokens* of the argument list (and no earlier token is an
operator), the resolver removes exactly that pair — the invoked program
receives every other token and never sees `<`, `>`, or the filename — and
performs exactly one open, of the named file, whose descriptor (on success)
becomes the resolved redirection target.  In particular
`["cat", ">", "out.txt"]` resolves output path `"out.txt"` with residual
argument list `["cat"]`.  (For operator+filename pairs that are *not*
trailing, the resolver instead truncates the list at the operator — see the
counterexample and C9.) -/
theorem C3_amended_trailing_pair_removed (orc : Nat → Bool) (pre : List String)
    (op f : String) (s : St) (hpre : ∀ a ∈ pre, isRedirOp a = false)
    (hop : isRedirOp op = true) (hf : isRedirOp f = false) :
    argvSeen (handle_redirection orc (pre ++ [op, f]) none none s).arr = pre
    ∧ (handle_redirection orc (pre ++ [op, f]) none none s).st.ops =
        s.ops ++ [if op = ">" then SysOp.openOut (some f) (orc s.ops.length)
                  else SysOp.openIn (some f) (orc s.ops.length)]
    ∧ (orc s.ops.length = true →
        (if op = ">" then (handle_redirection orc (pre ++ [op, f]) none none s).out_fd
         else (handle_redirection orc (pre ++ [op, f]) none none s).in_fd)
          = some s.nextFd) := by
  obtain ⟨hf1, hf2⟩ := isRedirOp_eq_false hf
  rw [hr_append_clean orc pre [op, f] hpre none none s]
  rcases Bool.or_eq_true _ _ |>.mp hop with h | h
  · have hg : op = ">" := by simpa using h
    subst hg
    rw [hr_gt_pair orc f hf1 hf2 none none s]
    refine ⟨?_, ?_, ?_⟩
    · rw [argvSeen_map_some_append, argvSeen_cons_none, List.append_nil]
    · cases hb : orc s.ops.length <;> simp [sysOpenOut, St.record, St.perror, hb]
    · intro hb
      simp [sysOpenOut, St.record, hb]
  · have hg : op = "<" := by simpa using h
    subst hg
    rw [hr_lt_pair orc f hf1 hf2 none none s]
    refine ⟨?_, ?_, ?_⟩
    · rw [argvSeen_map_some_append, argvSeen_cons_none, List.append_nil]
    · cases hb : orc s.ops.length <;> simp [sysOpenIn, St.record, St.perror, hb]
    · intro hb
      simp [sysOpenIn, St.record, hb]

/-- Witness for the amended C3 at the spec's own example: resolving
`["cat", ">", "out.txt"]` opens exactly `"out.txt"` for (truncating) write
— receiving descriptor `3` — and the program receives `["cat"]`. -/
theorem C3_amended_trailing_pair_removed_witness :
    argvSeen (handle_redirection orcT ["cat", ">", "out.txt"] none none initSt).arr = ["cat"]
    ∧ (handle_redirection orcT ["cat", ">", "out.txt"] none none initSt).st.ops =
        [SysOp.openOut (some "out.txt") true]
    ∧ (handle_redirection orcT ["cat", ">", "out.txt"] none none initSt).out_fd = some 3 := by
  have h := C3_amended_trailing_pair_removed orcT ["cat"] ">" "out.txt" initSt
    (by decide) (by decide) (by decide)
  refine ⟨h.1, ?_, ?_⟩
  · have := h.2.1
    simpa using this
  · have := h.2.2 (by decide)
    simpa using this

/-! ### Characterizing the resolver on lists whose operators all have filenames -/

/-- Every `">"`/`"<"` occurrence is followed by a token (no trailing operator). -/
def redirsNamed : List String → Bool
  | [] => true
  | a :: rest => if isRedirOp a then (!rest.isEmpty) && redirsNamed rest else redirsNamed rest

/-- Number of redirection-operator occurrences. -/
def numRedirs : List String → Nat
  | [] => 0
  | a :: rest => if isRedirOp a then numRedirs rest + 1 else numRedirs rest

/-- The open calls the resolver performs: one per operator occurrence, in
left-to-right order, each on the token following the operator. -/
def expectedOps : List String → List SysOp
  | [] => []
  | a :: rest =>
    if a = ">" then SysOp.openOut rest.head? true :: expectedOps rest
    else if a = "<" then SysOp.openIn rest.head? true :: expectedOps rest
    else expectedOps rest

/-- The input descriptor after the scan: each operator occurrence consumes one
fresh descriptor number; each `"<"` stores the descriptor just opened, so the
*last* `"<"` occurrence's descriptor survives. -/
def inAfter (base : Nat) (i : Option Nat) : List String → Option Nat
  | [] => i
  | a :: rest =>
    if a = ">" then inAfter (base + 1) i rest
    else if a = "<" then inAfter (base + 1) (some base) rest
    else inAfter base i rest

/-- The output descriptor after the scan (the *last* `">"` occurrence wins). -/
def outAfter (base : Nat) (o : Option Nat) : List String → Option Nat
  | [] => o
  | a :: rest =>
    if a = ">" then outAfter (base + 1) (some base) rest
    else if a = "<" then outAfter (base + 1) o rest
    else outAfter base o rest

/-- The descriptor-table entries created by `k` consecutive successful opens
starting at descriptor `n` / open file description `m` (newest first). -/
def allocRun (n m : Nat) : Nat → List (Nat × Nat)
  | 0 => []
  | k + 1 => allocRun (n + 1) (m + 1) k ++ [(n, m)]

theorem sysOpenOut_some (orc : Nat → Bool) (f : String) (s : St)
    (hb : orc s.ops.length = true) :
    sysOpenOut orc (some f) s =
      (some s.nextFd,
       { s with ops := s.ops ++ [SysOp.openOut (some f) true],
                fdt := (s.nextFd, s.nextOfd) :: s.fdt,
                nextFd := s.nextFd + 1, nextOfd := s.nextOfd + 1 }) := by
  simp [sysOpenOut, St.record, hb]

theorem sysOpenIn_some (orc : Nat → Bool) (f : String) (s : St)
    (hb : orc s.ops.length = true) :
    sysOpenIn orc (some f) s =
      (some s.nextFd,
       { s with ops := s.ops ++ [SysOp.openIn (some f) true],
                fdt := (s.nextFd, s.nextOfd) :: s.fdt,
                nextFd := s.nextFd + 1, nextOfd := s.nextOfd + 1 }) := by
  simp [sysOpenIn, St.record, hb]

/-- Closed form of the resolver under the all-success oracle, on lists whose
operators all have filenames: the mutated array, both descriptor
out-parameters, the descriptor table (one fresh, never-closed entry per
occurrence), the trace (exactly the expected opens, no closes) and the
untouched diagnostics. -/
theorem hr_closed (args : List String) (h : redirsNamed args = true)
    (i o : Option Nat) (s : St) :
    handle_redirection orcT args i o s =
      ⟨args.map (fun a => if isRedirOp a then none else some a),
       inAfter s.nextFd i args, outAfter s.nextFd o args,
       { fdt := allocRun s.nextFd s.nextOfd (numRedirs args) ++ s.fdt,
         nextFd := s.nextFd + numRedirs args,
         nextOfd := s.nextOfd + numRedirs args,
         ops := s.ops ++ expectedOps args,
         errs := s.errs }⟩ := by
  induction args generalizing i o s with
  | nil => simp [handle_redirection, inAfter, outAfter, numRedirs, expectedOps, allocRun]
  | cons a rest ih =>
    by_cases hgt : a = ">"
    case pos =>
      subst hgt
      have hval : isRedirOp ">" = true := by decide
      rw [redirsNamed, if_pos hval, Bool.and_eq_true] at h
      obtain ⟨hne, hrest⟩ := h
      obtain ⟨r0, rest', hr0⟩ : ∃ r0 rest', rest = r0 :: rest' := by
        cases rest with
        | nil => simp at hne
        | cons x xs => exact ⟨x, xs, rfl⟩
      have hhead : rest.head? = some r0 := by rw [hr0]; rfl
      simp only [handle_redirection, if_pos rfl, hhead, sysOpenOut_some orcT r0 s rfl,
        Option.isNone_some, Bool.false_eq_true, if_false, ih hrest]
      simp [inAfter, outAfter, numRedirs, expectedOps, allocRun, hval, hhead,
        List.append_assoc]
      omega
    case neg =>
      by_cases hlt : a = "<"
      case pos =>
        subst hlt
        have hval : isRedirOp "<" = true := by decide
        rw [redirsNamed, if_pos hval, Bool.and_eq_true] at h
        obtain ⟨hne, hrest⟩ := h
        obtain ⟨r0, rest', hr0⟩ : ∃ r0 rest', rest = r0 :: rest' := by
          cases rest with
          | nil => simp at hne
          | cons x xs => exact ⟨x, xs, rfl⟩
        have hhead : rest.head? = some r0 := by rw [hr0]; rfl
        simp only [handle_redirection, if_neg (by decide : ¬("<" : String) = ">"),
          if_pos rfl, hhead, sysOpenIn_some orcT r0 s rfl,
          Option.isNone_some, Bool.false_eq_true, if_false, ih hrest]
        simp [inAfter, outAfter, numRedirs, expectedOps, allocRun, hval, hhead,
          List.append_assoc]
        omega
      case neg =>
        have hval : isRedirOp a = false := by simp [isRedirOp, hgt, hlt]
        rw [redirsNamed, if_neg (by simp [hval])] at h
        simp only [handle_redirection, if_neg hgt, if_neg hlt, ih h]
        simp [inAfter, outAfter, numRedirs, expectedOps, hval, hgt, hlt]

theorem lookup_cons_ne {k v fd : Nat} (t : List (Nat × Nat)) (h : fd ≠ k) :
    ((k, v) :: t).lookup fd = t.lookup fd := by
  simp [List.lookup, beq_eq_false_iff_ne.mpr h]

theorem lookup_cons_eq (k v : Nat) (t : List (Nat × Nat)) :
    ((k, v) :: t).lookup k = some v := by
  simp [List.lookup]

theorem allocRun_key_lb : ∀ (k n m : Nat) (p : Nat × Nat), p ∈ allocRun n m k → n ≤ p.1 := by
  intro k
  induction k with
  | zero => intro n m p hp; simp [allocRun] at hp
  | succ k ih =>
    intro n m p hp
    rw [allocRun, List.mem_append] at hp
    rcases hp with hp | hp
    · exact Nat.le_of_succ_le (ih (n + 1) (m + 1) p hp)
    · have hpe : p = (n, m) := by simpa using hp
      rw [hpe]

theorem lookup_append_not_key (l1 l2 : List (Nat × Nat)) (fd : Nat)
    (h : ∀ p ∈ l1, p.1 ≠ fd) : (l1 ++ l2).lookup fd = l2.lookup fd := by
  induction l1 with
  | nil => rfl
  | cons p l1 ih =>
    obtain ⟨k, v⟩ := p
    rw [List.cons_append, lookup_cons_ne _ (fun hc => (h (k, v) (by simp)) hc.symm)]
    exact ih (fun q hq => h q (List.mem_cons_of_mem _ hq))

theorem lookup_allocRun : ∀ (k n m : Nat) (t : List (Nat × Nat)) (j : Nat), j < k →
    (allocRun n m k ++ t).lookup (n + j) = some (m + j) := by
  intro k
  induction k with
  | zero => intro n m t j hj; omega
  | succ k ih =>
    intro n m t j hj
    rw [allocRun, List.append_assoc]
    cases j with
    | zero =>
      rw [lookup_append_not_key _ _ _
        (fun p hp => by have := allocRun_key_lb k (n + 1) (m + 1) p hp; omega)]
      simp [lookup_cons_eq n m t]
    | succ j =>
      have := ih (n + 1) (m + 1) ((n, m) :: t) j (by omega)
      have harith : n + 1 + j = n + (j + 1) := by omega
      have harith2 : m + 1 + j = m + (j + 1) := by omega
      rw [harith, harith2] at this
      simpa using this

theorem expectedOps_no_close : ∀ args : List String,
    ∀ op ∈ expectedOps args, ∀ fd, op ≠ SysOp.closeFd fd := by
  intro args
  induction args with
  | nil => intro op hop; simp [expectedOps] at hop
  | cons a rest ih =>
    intro op hop fd
    rw [expectedOps] at hop
    by_cases hgt : a = ">"
    · rw [if_pos hgt] at hop
      rcases List.mem_cons.mp hop with h1 | h1
      · subst h1; intro hc; cases hc
      · exact ih op h1 fd
    · rw [if_neg hgt] at hop
      by_cases hlt : a = "<"
      · rw [if_pos hlt] at hop
        rcases List.mem_cons.mp hop with h1 | h1
        · subst h1; intro hc; cases hc
        · exact ih op h1 fd
      · rw [if_neg hlt] at hop
        exact ih op hop fd

/-- Claim C10: when an argument list contains the same redirection operator
more than once (in general, any number of operator occurrences each followed
by a filename token), the resolver resolves *every* occurrence — performing
exactly one open per occurrence, in left-to-right order, on the token
following the operator, and issuing no close — the descriptor stored for a
given direction is the one from the *last* occurrence of that operator
(`outAfter`/`inAfter`), and the descriptors opened for earlier occurrences
all remain open in the descriptor table. -/
theorem C10_repeated_operators_last_wins (args : List String) (s : St)
    (h : redirsNamed args = true) :
    (handle_redirection orcT args none none s).st.ops = s.ops ++ expectedOps args
    ∧ (∀ op ∈ expectedOps args, ∀ fd, op ≠ SysOp.closeFd fd)
    ∧ (handle_redirection orcT args none none s).out_fd = outAfter s.nextFd none args
    ∧ (handle_redirection orcT args none none s).in_fd = inAfter s.nextFd none args
    ∧ ∀ j, j < numRedirs args →
        (handle_redirection orcT args none none s).st.fdt.lookup (s.nextFd + j)
          = some (s.nextOfd + j) := by
  rw [hr_closed args h none none s]
  refine ⟨rfl, expectedOps_no_close args, rfl, rfl, ?_⟩
  intro j hj
  exact lookup_allocRun (numRedirs args) s.nextFd s.nextOfd s.fdt j hj

/-- Witness for C10 on `["a", ">", "f", ">", "g"]` from `initSt`: both named
files are opened in order, the second occurrence's descriptor (`4`) is the
effective output target, and the first occurrence's descriptor (`3`, open
file description `2`) is still open afterwards. -/
theorem C10_repeated_operators_last_wins_witness :
    (handle_redirection orcT ["a", ">", "f", ">", "g"] none none initSt).st.ops
        = [SysOp.openOut (some "f") true, SysOp.openOut (some "g") true]
    ∧ (handle_redirection orcT ["a", ">", "f", ">", "g"] none none initSt).out_fd = some 4
    ∧ (handle_redirection orcT ["a", ">", "f", ">", "g"] none none initSt).st.fdt.lookup 3
        = some 2 := by
  have h := C10_repeated_operators_last_wins ["a", ">", "f", ">", "g"] initSt (by decide)
  refine ⟨?_, ?_, ?_⟩
  · have := h.1
    rw [this]
    decide
  · have := h.2.2.1
    rw [this]
    decide
  · have := h.2.2.2.2 0 (by decide)
    simpa using this

/-! ### Process launcher (`src/executor.c`, `launch_process`, POSIX branch) -/

/-- `launch_process`: `fork()`, child `execvp`s (recorded as an `exec` event
with its found/not-found outcome; the child's image is a separate process, so
the parent state is otherwise untouched), parent waits; a fork failure is
reported with `perror`.  The function returns `1` on every path. -/
def launch_process (orc : Nat → Bool) (args : List String) (s : St) : Int × St :=
  let forkOk := orc s.ops.length
  let s := St.record s (.fork forkOk)
  if forkOk then
    let execOk := orc s.ops.length
    let s := St.record s (.exec (args.headD "") execOk)
    (1, St.record s .wait)
  else
    (1, s.perror "shell")

/-! ### Pipeline executor (`src/executor.c`, `execute_pipeline`) -/

/-- The pipe-creation loop: each `pipe()` call allocates two descriptors; on
failure the function reports `"pipe"` and aborts (first component `false`). -/
def mkPipes (orc : Nat → Bool) : Nat → St → Bool × St
  | 0, s => (true, s)
  | k + 1, s =>
    let ok := orc s.ops.length
    let s := s.record (.pipeCreate ok)
    if ok then
      mkPipes orc k
        { s with fdt := (s.nextFd + 1, s.nextOfd + 1) :: (s.nextFd, s.nextOfd) :: s.fdt,
                 nextFd := s.nextFd + 2, nextOfd := s.nextOfd + 2 }
    else (false, s.perror "pipe")

/-- The spawn loop: one `fork()` per stage, in order.  The child's descriptor
surgery and `execvp` happen in the child process and do not touch the parent
state.  On a fork failure the loop reports `"fork"` and **returns
immediately** (first component `false`), spawning none of the later stages. -/
def spawnLoop (orc : Nat → Bool) : List (List String) → St → Bool × St
  | [], s => (true, s)
  | _ :: rest, s =>
    let ok := orc s.ops.length
    let s := s.record (.fork ok)
    if ok then spawnLoop orc rest s
    else (false, s.perror "fork")

/-- Close a list of descriptors in order (the parent's post-spawn cleanup). -/
def closeRun : List Nat → St → St
  | [], s => s
  | fd :: r, s => closeRun r (sysClose fd s)

/-- `wait(&status)` repeated `k` times. -/
def waitRun : Nat → St → St
  | 0, s => s
  | k + 1, s => waitRun k (s.record .wait)

/-- `execute_pipeline`: create the `n-1` pipes (abort on failure), spawn the
`n` stages (abort on a fork failure), then the parent closes all `2(n-1)`
pipe descriptors it created and waits for the `n` children.  Every path
returns `1`. -/
def execute_pipeline (orc : Nat → Bool) (cmd_args : List (List String)) (s : St) : Int × St :=
  let num_cmds := cmd_args.length
  let base := s.nextFd
  let p := mkPipes orc (num_cmds - 1) s
  if p.1 then
    let q := spawnLoop orc cmd_args p.2
    if q.1 then
      let s2 := closeRun ((List.range (2 * (num_cmds - 1))).map (fun j => base + j)) q.2
      (1, waitRun num_cmds s2)
    else (1, q.2)
  else (1, p.2)

/-! ### Pipeline splitter (`execute_command`, step 1) -/

/-- The split `execute_command` performs: `cmd_args[0]` starts at the front,
and each `"|"` token is overwritten with `NULL` (ending the current stage)
with the next stage starting right behind it. -/
def splitPipes : List String → List (List String)
  | [] => [[]]
  | a :: rest =>
    let r := splitPipes rest
    if a = "|" then [] :: r
    else (a :: r.headD []) :: r.tail

/-- Rejoining stages with a `"|"` separator between adjacent stages. -/
def joinPipes : List (List String) → List String
  | [] => []
  | [c] => c
  | c :: cs => c ++ "|" :: joinPipes cs

/-! ### Built-ins (`src/builtins.c`) -/

/-- `builtin_str`, the registry of built-in command names. -/
def builtin_str : List String :=
  ["cd", "exit", "help", "clear", "about", "history", "count", "cp", "mv", "rm"]

/-- `shell_cd`: requires `args[1]`; `chdir` failures are reported. -/
def shell_cd (orc : Nat → Bool) (args : List String) (s : St) : Int × St :=
  match args[1]? with
  | none => (1, s.perror "shell: expected argument to \"cd\"\n")
  | some d =>
    let ok := orc s.ops.length
    let s := s.record (.chdir d ok)
    if ok then (1, s) else (1, s.perror "shell")

/-- `shell_exit`: the only built-in returning `0` (terminate the loop). -/
def shell_exit (args : List String) (s : St) : Int × St :=
  let _ := args
  (0, s)

/-- `shell_help`: prints the help text (console output is outside the model). -/
def shell_help (args : List String) (s : St) : Int × St :=
  let _ := args
  (1, s)

/-- `shell_clear`: prints the clear escape sequence. -/
def shell_clear (args : List String) (s : St) : Int × St :=
  let _ := args
  (1, s)

/-- `shell_about`: prints the identity banner. -/
def shell_about (args : List String) (s : St) : Int × St :=
  let _ := args
  (1, s)

/-- `shell_history`: prints the session history. -/
def shell_history (args : List String) (s : St) : Int × St :=
  let _ := args
  (1, s)

/-- `shell_count`: requires `args[1]`; `fopen`s it, counts (content I/O is
outside the model), `fclose`s it. -/
def shell_count (orc : Nat → Bool) (args : List String) (s : St) : Int × St :=
  match args[1]? with
  | none => (1, s.perror "shell: expected argument to \"count\"\n")
  | some f =>
    let ok := orc s.ops.length
    let s := s.record (.fopen f false ok)
    if ok then
      let fd := s.nextFd
      let s := { s with fdt := (fd, s.nextOfd) :: s.fdt,
                        nextFd := s.nextFd + 1, nextOfd := s.nextOfd + 1 }
      let s := s.record (.fcloseOp fd)
      (1, { s with fdt := fdRemove s.fdt fd })
    else (1, s.perror "shell")

/-- `shell_cp`: requires `args[1]` and `args[2]`; opens both (closing the
source again if the destination fails), copies, closes both. -/
def shell_cp (orc : Nat → Bool) (args : List String) (s : St) : Int × St :=
  match args[1]?, args[2]? with
  | some a, some b =>
    let ok1 := orc s.ops.length
    let s := s.record (.fopen a false ok1)
    if ok1 then
      let fdA := s.nextFd
      let s := { s with fdt := (fdA, s.nextOfd) :: s.fdt,
                        nextFd := s.nextFd + 1, nextOfd := s.nextOfd + 1 }
      let ok2 := orc s.ops.length
      let s := s.record (.fopen b true ok2)
      if ok2 then
        let fdB := s.nextFd
        let s := { s with fdt := (fdB, s.nextOfd) :: s.fdt,
                          nextFd := s.nextFd + 1, nextOfd := s.nextOfd + 1 }
        let s := s.record (.fcloseOp fdA)
        let s := { s with fdt := fdRemove s.fdt fdA }
        let s := s.record (.fcloseOp fdB)
        (1, { s with fdt := fdRemove s.fdt fdB })
      else
        let s := s.record (.fcloseOp fdA)
        let s := { s with fdt := fdRemove s.fdt fdA }
        (1, s.perror "shell")
    else (1, s.perror "shell")
  | _, _ => (1, s.perror "shell: expected source and destination for \"cp\"\n")

/-- `shell_mv`: requires `args[1]` and `args[2]`; `rename` failures reported. -/
def shell_mv (orc : Nat → Bool) (args : List String) (s : St) : Int × St :=
  match args[1]?, args[2]? with
  | some a, some b =>
    let ok := orc s.ops.length
    let s := s.record (.renameOp a b ok)
    if ok then (1, s) else (1, s.perror "shell")
  | _, _ => (1, s.perror "shell: expected source and destination for \"mv\"\n")

/-- `shell_rm`: requires `args[1]`; `remove` failures reported. -/
def shell_rm (orc : Nat → Bool) (args : List String) (s : St) : Int × St :=
  match args[1]? with
  | none => (1, s.perror "shell: expected argument to \"rm\"\n")
  | some f =>
    let ok := orc s.ops.length
    let s := s.record (.removeOp f ok)
    if ok then (1, s) else (1, s.perror "shell")

/-- Dispatch through the `builtin_func` table by (unique) name. -/
def runBuiltin (orc : Nat → Bool) (name : String) (args : List String) (s : St) : Int × St :=
  if name = "cd" then shell_cd orc args s
  else if name = "exit" then shell_exit args s
  else if name = "help" then shell_help args s
  else if name = "clear" then shell_clear args s
  else if name = "about" then shell_about args s
  else if name = "history" then shell_history args s
  else if name = "count" then shell_count orc args s
  else if name = "cp" then shell_cp orc args s
  else if name = "mv" then shell_mv orc args s
  else if name = "rm" then shell_rm orc args s
  else (1, s)

/-! ### Dispatcher (`src/executor.c`, `execute_command`) -/

/-- `if (fd != -1) { dup2(fd, dst); close(fd); }` — applying one resolved
redirection descriptor to a standard stream. -/
def applyRedir (x : Option Nat) (dst : Nat) (s : St) : St :=
  match x with
  | some fd => sysClose fd (sysDup2 fd dst s)
  | none => s

/-- `dup2(saved, dst)` with a possibly failed (`-1`) snapshot descriptor. -/
def restoreStream (x : Option Nat) (dst : Nat) (s : St) : St :=
  match x with
  | some fd => sysDup2 fd dst s
  | none => s

/-- `close(saved)` with a possibly failed (`-1`) snapshot descriptor. -/
def closeSaved (x : Option Nat) (s : St) : St :=
  match x with
  | some fd => sysClose fd s
  | none => s

/-- Steps 3–4 of `execute_command` (the external-command tail): resolve
redirection, apply resolved descriptors to fds `0`/`1`, launch, then restore
the snapshot onto fds `0`/`1` and close both snapshot descriptors. -/
def external_dispatch (orc : Nat → Bool) (args : List String)
    (saved_stdin saved_stdout : Option Nat) (s : St) : Int × St :=
  let r := handle_redirection orc args none none s
  let s := applyRedir r.in_fd 0 r.st
  let s := applyRedir r.out_fd 1 s
  let l := launch_process orc (argvSeen r.arr) s
  let s := restoreStream saved_stdin 0 l.2
  let s := restoreStream saved_stdout 1 s
  let s := closeSaved saved_stdin s
  let s := closeSaved saved_stdout s
  (l.1, s)

/-- `execute_command`: snapshot stdin/stdout with `dup` *first*; an empty
line returns `1`; a line containing `"|"` is split and run as a pipeline; a
first token matching a registered built-in dispatches to it; otherwise the
external tail runs.  Note that only the external tail closes the snapshot. -/
def execute_command (orc : Nat → Bool) (args : List String) (s : St) : Int × St :=
  let d0 := sysDup 0 s
  let saved_stdin := d0.1
  let d1 := sysDup 1 d0.2
  let saved_stdout := d1.1
  let s := d1.2
  match args with
  | [] => (1, s)
  | a0 :: _ =>
    let num_pipes := args.count "|"
    if 0 < num_pipes then
      execute_pipeline orc (splitPipes args) s
    else if a0 ∈ builtin_str then
      runBuiltin orc a0 args s
    else
      external_dispatch orc args saved_stdin saved_stdout s

/-! ### Theorems about the pipeline splitter -/

theorem splitPipes_ne_nil (l : List String) : splitPipes l ≠ [] := by
  cases l with
  | nil => simp [splitPipes]
  | cons a rest =>
    simp only [splitPipes]
    split <;> simp

theorem length_splitPipes (l : List String) :
    (splitPipes l).length = l.count "|" + 1 := by
  induction l with
  | nil => rfl
  | cons a rest ih =>
    obtain ⟨c, done, hc⟩ := List.exists_cons_of_ne_nil (splitPipes_ne_nil rest)
    by_cases hp : a = "|"
    · subst hp
      simp [splitPipes, List.count_cons_self, ih]
    · simp only [splitPipes, if_neg hp, List.length_cons]
      rw [List.count_cons_of_ne (fun h => hp h.symm)]
      rw [hc] at ih ⊢
      simpa using ih

theorem splitPipes_no_pipe (l : List String) : ∀ c ∈ splitPipes l, "|" ∉ c := by
  induction l with
  | nil => intro c hc; simp [splitPipes] at hc; simp [hc]
  | cons a rest ih =>
    obtain ⟨c0, done, hc0⟩ := List.exists_cons_of_ne_nil (splitPipes_ne_nil rest)
    intro c hc
    by_cases hp : a = "|"
    · subst hp
      rw [splitPipes] at hc
      simp only [if_pos rfl] at hc
      rcases List.mem_cons.mp hc with h1 | h1
      · simp [h1]
      · exact ih c h1
    · rw [splitPipes] at hc
      simp only [if_neg hp] at hc
      rw [hc0] at hc
      simp only [List.headD_cons, List.tail_cons] at hc
      rcases List.mem_cons.mp hc with h1 | h1
      · subst h1
        intro hmem
        rcases List.mem_cons.mp hmem with h2 | h2
        · exact hp h2.symm
        · exact ih c0 (hc0 ▸ List.mem_cons_self c0 done) (by simpa using h2)
      · exact ih c (hc0 ▸ List.mem_cons_of_mem c0 h1)

theorem joinPipes_splitPipes (l : List String) : joinPipes (splitPipes l) = l := by
  induction l with
  | nil => rfl
  | cons a rest ih =>
    obtain ⟨c, done, hc⟩ := List.exists_cons_of_ne_nil (splitPipes_ne_nil rest)
    by_cases hp : a = "|"
    · subst hp
      rw [splitPipes, if_pos rfl, hc]
      show "|" :: joinPipes (c :: done) = "|" :: rest
      rw [← hc, ih]
    · rw [splitPipes, if_neg hp]
      rw [hc] at ih ⊢
      simp only [List.headD_cons, List.tail_cons]
      cases done with
      | nil =>
        have ih2 : c = rest := ih
        show a :: c = a :: rest
        rw [ih2]
      | cons d ds =>
        have ih2 : c ++ "|" :: joinPipes (d :: ds) = rest := ih
        show (a :: c) ++ "|" :: joinPipes (d :: ds) = a :: rest
        rw [List.cons_append, ih2]

/-- Claim C5: for a token list with exactly `k` `"|"` tokens and no empty
stages, the dispatcher's split yields exactly `k+1` non-empty stages, no
stage contains the separator, and rejoining the stages with `"|"` recovers
the original token order. -/
theorem C5_split_roundtrip (l : List String) (k : Nat) (hk : l.count "|" = k)
    (hne : ∀ c ∈ splitPipes l, c ≠ []) :
    (splitPipes l).length = k + 1
    ∧ (∀ c ∈ splitPipes l, c ≠ [] ∧ "|" ∉ c)
    ∧ joinPipes (splitPipes l) = l := by
  subst hk
  exact ⟨length_splitPipes l,
    fun c hc => ⟨hne c hc, splitPipes_no_pipe l c hc⟩,
    joinPipes_splitPipes l⟩

/-- Witness for C5 on `["ls", "|", "wc", "-l"]` (`k = 1`). -/
theorem C5_split_roundtrip_witness :
    (splitPipes ["ls", "|", "wc", "-l"]).length = 1 + 1
    ∧ (∀ c ∈ splitPipes ["ls", "|", "wc", "-l"], c ≠ [] ∧ "|" ∉ c)
    ∧ joinPipes (splitPipes ["ls", "|", "wc", "-l"]) = ["ls", "|", "wc", "-l"] :=
  C5_split_roundtrip ["ls", "|", "wc", "-l"] 1 (by decide) (by decide)

/-! ### Return-value lemmas -/

theorem launch_process_fst (orc : Nat → Bool) (args : List String) (s : St) :
    (launch_process orc args s).1 = 1 := by
  by_cases hf : orc s.ops.length <;> simp [launch_process, hf]

theorem execute_pipeline_fst (orc : Nat → Bool) (cmds : List (List String)) (s : St) :
    (execute_pipeline orc cmds s).1 = 1 := by
  simp only [execute_pipeline]
  split
  · split <;> rfl
  · rfl

theorem shell_cd_fst (orc : Nat → Bool) (args : List String) (s : St) :
    (shell_cd orc args s).1 = 1 := by
  cases h : args[1]? <;> simp [shell_cd, h, apply_ite]

theorem shell_count_fst (orc : Nat → Bool) (args : List String) (s : St) :
    (shell_count orc args s).1 = 1 := by
  cases h : args[1]? <;> simp [shell_count, h, apply_ite]

theorem shell_cp_fst (orc : Nat → Bool) (args : List String) (s : St) :
    (shell_cp orc args s).1 = 1 := by
  cases h1 : args[1]? <;> cases h2 : args[2]? <;> simp [shell_cp, h1, h2, apply_ite]

theorem shell_mv_fst (orc : Nat → Bool) (args : List String) (s : St) :
    (shell_mv orc args s).1 = 1 := by
  cases h1 : args[1]? <;> cases h2 : args[2]? <;> simp [shell_mv, h1, h2, apply_ite]

theorem shell_rm_fst (orc : Nat → Bool) (args : List String) (s : St) :
    (shell_rm orc args s).1 = 1 := by
  cases h : args[1]? <;> simp [shell_rm, h, apply_ite]

theorem runBuiltin_fst (orc : Nat → Bool) (name : String) (args : List String) (s : St)
    (h : ¬name = "exit") : (runBuiltin orc name args s).1 = 1 := by
  rw [runBuiltin]
  split_ifs with h1 h2 h3 h4 h5 h6 h7 h8 h9
  · exact shell_cd_fst orc args s
  · rfl
  · rfl
  · rfl
  · rfl
  · exact shell_count_fst orc args s
  · exact shell_cp_fst orc args s
  · exact shell_mv_fst orc args s
  · exact shell_rm_fst orc args s
  · rfl

theorem runBuiltin_exit_fst (orc : Nat → Bool) (args : List String) (s : St) :
    (runBuiltin orc "exit" args s).1 = 0 := by
  simp [runBuiltin, shell_exit]

/-! ### Claim C2: spawn failure inside the pipeline -/

/-- Oracle making the first system call (the `pipe()`) succeed and every
later one (in particular the first `fork()`) fail. -/
def orcPipeOkForkFail : Nat → Bool := fun k => k == 0

/-- The all-failures oracle. -/
def orcF : Nat → Bool := fun _ => false

/-- Counterexample to claim C2: running the two-stage pipeline
`[["a"], ["b"]]` with the pipe created successfully and the spawn of stage 0
failing, the trace holds exactly ONE `fork` event — the spawn of stage 1 was
never attempted, contradicting the claim that remaining stages are still
attempted after a spawn failure (the failure is still reported, and the
executor still returns `1`). -/
theorem C2_counterexample_spawn_failure_stops :
    (execute_pipeline orcPipeOkForkFail [["a"], ["b"]] initSt).2.ops
        = [SysOp.pipeCreate true, SysOp.fork false]
    ∧ (execute_pipeline orcPipeOkForkFail [["a"], ["b"]] initSt).2.errs = ["fork"]
    ∧ (execute_pipeline orcPipeOkForkFail [["a"], ["b"]] initSt).1 = 1 := by
  refine ⟨?_, ?_, ?_⟩ <;> decide

/-- Claim C2 as amended: when the spawn (`fork`) of a pipeline stage fails,
the executor reports `"fork"` and returns immediately — none of the
remaining stages is attempted (the spawn loop stops at the failing stage,
whatever stages remain), and `execute_pipeline` still reports `1`
("continue the shell loop"). -/
theorem C2_amended_spawn_failure_aborts_remaining :
    (∀ (orc : Nat → Bool) (c : List String) (rest : List (List String)) (s : St),
        orc s.ops.length = false →
          spawnLoop orc (c :: rest) s = (false, (St.record s (.fork false)).perror "fork"))
    ∧ ∀ (orc : Nat → Bool) (cmds : List (List String)) (s : St),
        (execute_pipeline orc cmds s).1 = 1 := by
  constructor
  · intro orc c rest s h
    simp [spawnLoop, h]
  · intro orc cmds s
    exact execute_pipeline_fst orc cmds s

/-- Witness for the amended C2: with the all-failures oracle, spawning the
first of two stages fails, the loop stops right there with the `"fork"`
report, and the executor returns `1`. -/
theorem C2_amended_spawn_failure_aborts_remaining_witness :
    spawnLoop orcF (["a"] :: [["b"]]) initSt
        = (false, (St.record initSt (.fork false)).perror "fork")
    ∧ (execute_pipeline orcF [["a"], ["b"]] initSt).1 = 1 :=
  ⟨C2_amended_spawn_failure_aborts_remaining.1 orcF ["a"] [["b"]] initSt rfl,
   C2_amended_spawn_failure_aborts_remaining.2 orcF [["a"], ["b"]] initSt⟩

/-! ### Claim C6: `exit` is the sole terminator -/

theorem execute_command_nil_eq (orc : Nat → Bool) (s : St) :
    execute_command orc [] s = (1, (sysDup 1 (sysDup 0 s).2).2) := rfl

/-- Claim C6: `execute_command` returns the terminate signal `0` exactly when
the first token is `"exit"` and the line contains no `"|"` (so it is
dispatched as a built-in); every other outcome — empty line, other
built-ins, pipelines (including pipe-creation and fork failures), and
external launches (success, failure, or not-found) — returns the continue
signal `1`; and `launch_process` itself returns `1` for every oracle. -/
theorem C6_exit_sole_terminator (orc : Nat → Bool) (args : List String) (s : St) :
    ((args.head? = some "exit" ∧ "|" ∉ args) → (execute_command orc args s).1 = 0)
    ∧ (¬(args.head? = some "exit" ∧ "|" ∉ args) → (execute_command orc args s).1 = 1)
    ∧ ∀ (args2 : List String) (s2 : St), (launch_process orc args2 s2).1 = 1 := by
  refine ⟨?_, ?_, fun args2 s2 => launch_process_fst orc args2 s2⟩
  · rintro ⟨hh, hnp⟩
    cases args with
    | nil => cases hh
    | cons a0 rest =>
      have ha0 : a0 = "exit" := by simpa using hh
      subst ha0
      have hcount : ("exit" :: rest).count "|" = 0 := List.count_eq_zero.mpr hnp
      simp only [execute_command, hcount]
      rw [if_neg (by omega)]
      rw [if_pos (by decide : ("exit" : String) ∈ builtin_str)]
      exact runBuiltin_exit_fst orc _ _
  · intro hn
    cases args with
    | nil => rw [execute_command_nil_eq]
    | cons a0 rest =>
      by_cases hmem : "|" ∈ (a0 :: rest)
      · have hcount : 0 < (a0 :: rest).count "|" := List.count_pos_iff.mpr hmem
        simp only [execute_command]
        rw [if_pos hcount]
        exact execute_pipeline_fst orc _ _
      · have hcount : (a0 :: rest).count "|" = 0 := List.count_eq_zero.mpr hmem
        by_cases hb : a0 ∈ builtin_str
        · by_cases he : a0 = "exit"
          · exact absurd ⟨by simp [he], hmem⟩ hn
          · simp only [execute_command, hcount]
            rw [if_neg (by omega), if_pos hb]
            exact runBuiltin_fst orc a0 _ _ he
        · simp only [execute_command, hcount]
          rw [if_neg (by omega), if_neg hb]
          simp only [external_dispatch]
          exact launch_process_fst orc _ _

/-- Witness for C6: `["exit"]` terminates, `["ls"]` continues, and a launch
continues. -/
theorem C6_exit_sole_terminator_witness :
    (execute_command orcT ["exit"] initSt).1 = 0
    ∧ (execute_command orcT ["ls"] initSt).1 = 1
    ∧ (launch_process orcT ["x"] initSt).1 = 1 :=
  ⟨(C6_exit_sole_terminator orcT ["exit"] initSt).1 (by decide),
   (C6_exit_sole_terminator orcT ["ls"] initSt).2.1 (by decide),
   (C6_exit_sole_terminator orcT ["ls"] initSt).2.2 ["x"] initSt⟩

/-! ### Claim C8: missing required argument to a built-in -/

/-- Claim C8: each of `cd`, `count`, `cp`, `mv`, `rm`, when a required
argument is absent, reports to the diagnostic stream, performs no system
operation (the result state is exactly the input state plus one diagnostic
line — in particular the operation trace is untouched), and returns the
continue signal `1`. -/
theorem C8_missing_argument_reports_and_continues :
    (∀ (orc : Nat → Bool) (args : List String) (s : St), args[1]? = none →
        shell_cd orc args s = (1, s.perror "shell: expected argument to \"cd\"\n"))
    ∧ (∀ (orc : Nat → Bool) (args : List String) (s : St), args[1]? = none →
        shell_count orc args s = (1, s.perror "shell: expected argument to \"count\"\n"))
    ∧ (∀ (orc : Nat → Bool) (args : List String) (s : St),
        args[1]? = none ∨ args[2]? = none →
        shell_cp orc args s = (1, s.perror "shell: expected source and destination for \"cp\"\n"))
    ∧ (∀ (orc : Nat → Bool) (args : List String) (s : St),
        args[1]? = none ∨ args[2]? = none →
        shell_mv orc args s = (1, s.perror "shell: expected source and destination for \"mv\"\n"))
    ∧ (∀ (orc : Nat → Bool) (args : List String) (s : St), args[1]? = none →
        shell_rm orc args s = (1, s.perror "shell: expected argument to \"rm\"\n")) := by
  refine ⟨?_, ?_, ?_, ?_, ?_⟩
  · intro orc args s h
    simp [shell_cd, h]
  · intro orc args s h
    simp [shell_count, h]
  · intro orc args s h
    rcases h with h | h
    · cases h2 : args[2]? <;> simp [shell_cp, h, h2]
    · cases h1 : args[1]? <;> simp [shell_cp, h, h1]
  · intro orc args s h
    rcases h with h | h
    · cases h2 : args[2]? <;> simp [shell_mv, h, h2]
    · cases h1 : args[1]? <;> simp [shell_mv, h, h1]
  · intro orc args s h
    simp [shell_rm, h]

/-- Witness for C8 at the five concrete bare invocations. -/
theorem C8_missing_argument_reports_and_continues_witness :
    shell_cd orcT ["cd"] initSt
        = (1, initSt.perror "shell: expected argument to \"cd\"\n")
    ∧ shell_count orcT ["count"] initSt
        = (1, initSt.perror "shell: expected argument to \"count\"\n")
    ∧ shell_cp orcT ["cp", "src"] initSt
        = (1, initSt.perror "shell: expected source and destination for \"cp\"\n")
    ∧ shell_mv orcT ["mv"] initSt
        = (1, initSt.perror "shell: expected source and destination for \"mv\"\n")
    ∧ shell_rm orcT ["rm"] initSt
        = (1, initSt.perror "shell: expected argument to \"rm\"\n") :=
  ⟨C8_missing_argument_reports_and_continues.1 orcT ["cd"] initSt rfl,
   C8_missing_argument_reports_and_continues.2.1 orcT ["count"] initSt rfl,
   C8_missing_argument_reports_and_continues.2.2.1 orcT ["cp", "src"] initSt (Or.inr rfl),
   C8_missing_argument_reports_and_continues.2.2.2.1 orcT ["mv"] initSt (Or.inl rfl),
   C8_missing_argument_reports_and_continues.2.2.2.2 orcT ["rm"] initSt rfl⟩

/-! ### Claim C1: the standard-stream snapshot is NOT closed on every path -/

/-- Claim C1 (refuted — code bug): on the empty-command path the dispatcher
has already `dup`ed stdin and stdout into the snapshot descriptors `3` and
`4`, and returns with both STILL OPEN in the descriptor table; the whole
trace is the two `dup`s — no `close` is ever issued, so the snapshot leaks
(the same happens on the pipeline and built-in paths, which also return
before the restore/close block). -/
theorem C1_snapshot_leaked_on_empty_path :
    (execute_command orcT [] initSt).1 = 1
    ∧ (execute_command orcT [] initSt).2.fdt.lookup 3 = some 0
    ∧ (execute_command orcT [] initSt).2.fdt.lookup 4 = some 1
    ∧ (execute_command orcT [] initSt).2.ops = [SysOp.dup 0, SysOp.dup 1] := by
  refine ⟨?_, ?_, ?_, ?_⟩ <;> decide

/-! ### Descriptor-preservation lemmas, towards claim C4 -/

theorem lookup_fdRemove_ne (t : List (Nat × Nat)) (fd d : Nat) (h : fd ≠ d) :
    (fdRemove t d).lookup fd = t.lookup fd := by
  induction t with
  | nil => rfl
  | cons p t ih =>
    obtain ⟨k, v⟩ := p
    by_cases hk : k = d
    · subst hk
      have : fdRemove ((k, v) :: t) k = fdRemove t k := by simp [fdRemove]
      rw [this, ih, lookup_cons_ne t h]
    · have : fdRemove ((k, v) :: t) d = (k, v) :: fdRemove t d := by
        simp [fdRemove, hk]
      rw [this]
      by_cases hfk : fd = k
      · subst hfk
        rw [lookup_cons_eq, lookup_cons_eq]
      · rw [lookup_cons_ne _ hfk, lookup_cons_ne _ hfk, ih]

theorem sysDup2_lookup_ne (src dst fd : Nat) (s : St) (h : fd ≠ dst) :
    (sysDup2 src dst s).fdt.lookup fd = s.fdt.lookup fd := by
  rw [sysDup2]
  cases hl : (St.record s (.dup2 src dst)).fdt.lookup src with
  | none => simp [St.record] at hl ⊢
  | some ofd =>
    simp only [St.record] at hl ⊢
    simp [fdSet, lookup_cons_ne _ h, lookup_fdRemove_ne _ _ _ h]

theorem sysDup2_lookup_eq (src dst : Nat) (s : St) (x : Nat)
    (h : s.fdt.lookup src = some x) :
    (sysDup2 src dst s).fdt.lookup dst = some x := by
  rw [sysDup2]
  simp only [St.record]
  rw [show ({ s with ops := s.ops ++ [SysOp.dup2 src dst] } : St).fdt = s.fdt from rfl, h]
  simp [fdSet, lookup_cons_eq]

theorem sysClose_lookup_ne (d fd : Nat) (s : St) (h : fd ≠ d) :
    (sysClose d s).fdt.lookup fd = s.fdt.lookup fd := by
  simp [sysClose, St.record, lookup_fdRemove_ne _ _ _ h]

theorem launch_process_fdt (orc : Nat → Bool) (args : List String) (s : St) :
    (launch_process orc args s).2.fdt = s.fdt := by
  by_cases hf : orc s.ops.length <;> simp [launch_process, hf, St.record, St.perror]

theorem sysDup_some (fd : Nat) (s : St) (x : Nat) (h : s.fdt.lookup fd = some x) :
    sysDup fd s =
      (some s.nextFd,
       { s with ops := s.ops ++ [SysOp.dup fd],
                fdt := (s.nextFd, x) :: s.fdt, nextFd := s.nextFd + 1 }) := by
  rw [sysDup]
  simp only [St.record]
  rw [show ({ s with ops := s.ops ++ [SysOp.dup fd] } : St).fdt = s.fdt from rfl, h]

/-- Freshness of a descriptor out-parameter: it is either untouched, unset,
or a descriptor at least `n` (allocated during the call). -/
def freshOpt (x init : Option Nat) (n : Nat) : Prop :=
  x = init ∨ x = none ∨ ∃ fd, x = some fd ∧ n ≤ fd

theorem freshOpt_weaken {x init : Option Nat} {n n' : Nat}
    (h : freshOpt x init n') (hn : n ≤ n') : freshOpt x init n := by
  rcases h with h | h | ⟨fd, hx, hfd⟩
  · exact Or.inl h
  · exact Or.inr (Or.inl h)
  · exact Or.inr (Or.inr ⟨fd, hx, le_trans hn hfd⟩)

theorem freshOpt_step {x init : Option Nat} {n n' : Nat}
    (h : freshOpt x init n') (hn : n ≤ n')
    (hinit : init = none ∨ ∃ fd, init = some fd ∧ n ≤ fd) :
    ∀ o : Option Nat, freshOpt x o n := by
  intro o
  rcases h with h | h | ⟨fd, hx, hfd⟩
  · rcases hinit with h2 | ⟨fd, h2, hfd⟩
    · exact Or.inr (Or.inl (h.trans h2))
    · exact Or.inr (Or.inr ⟨fd, h.trans h2, hfd⟩)
  · exact Or.inr (Or.inl h)
  · exact Or.inr (Or.inr ⟨fd, hx, le_trans hn hfd⟩)

theorem sysOpenOut_eq_pos (orc : Nat → Bool) (path : Option String) (s : St)
    (hok : (path.isSome && orc s.ops.length) = true) :
    sysOpenOut orc path s =
      (some s.nextFd,
       { s with ops := s.ops ++ [SysOp.openOut path true],
                fdt := (s.nextFd, s.nextOfd) :: s.fdt,
                nextFd := s.nextFd + 1, nextOfd := s.nextOfd + 1 }) := by
  simp [sysOpenOut, St.record, hok]

theorem sysOpenOut_eq_neg (orc : Nat → Bool) (path : Option String) (s : St)
    (hok : ¬(path.isSome && orc s.ops.length) = true) :
    sysOpenOut orc path s =
      (none, { s with ops := s.ops ++ [SysOp.openOut path false] }) := by
  simp only [sysOpenOut, St.record, Bool.not_eq_true] at hok ⊢
  rw [hok]
  simp

theorem sysOpenIn_eq_pos (orc : Nat → Bool) (path : Option String) (s : St)
    (hok : (path.isSome && orc s.ops.length) = true) :
    sysOpenIn orc path s =
      (some s.nextFd,
       { s with ops := s.ops ++ [SysOp.openIn path true],
                fdt := (s.nextFd, s.nextOfd) :: s.fdt,
                nextFd := s.nextFd + 1, nextOfd := s.nextOfd + 1 }) := by
  simp [sysOpenIn, St.record, hok]

theorem sysOpenIn_eq_neg (orc : Nat → Bool) (path : Option String) (s : St)
    (hok : ¬(path.isSome && orc s.ops.length) = true) :
    sysOpenIn orc path s =
      (none, { s with ops := s.ops ++ [SysOp.openIn path false] }) := by
  simp only [sysOpenIn, St.record, Bool.not_eq_true] at hok ⊢
  rw [hok]
  simp

theorem sysOpenOut_facts (orc : Nat → Bool) (path : Option String) (s : St) :
    s.nextFd ≤ (sysOpenOut orc path s).2.nextFd
    ∧ (∀ fd, fd < s.nextFd →
        (sysOpenOut orc path s).2.fdt.lookup fd = s.fdt.lookup fd)
    ∧ ((sysOpenOut orc path s).1 = none ∨ (sysOpenOut orc path s).1 = some s.nextFd) := by
  by_cases hok : (path.isSome && orc s.ops.length) = true
  · rw [sysOpenOut_eq_pos orc path s hok]
    exact ⟨by simp, fun fd hfd => lookup_cons_ne _ (by omega), Or.inr rfl⟩
  · rw [sysOpenOut_eq_neg orc path s hok]
    exact ⟨le_refl _, fun fd _ => rfl, Or.inl rfl⟩

theorem sysOpenIn_facts (orc : Nat → Bool) (path : Option String) (s : St) :
    s.nextFd ≤ (sysOpenIn orc path s).2.nextFd
    ∧ (∀ fd, fd < s.nextFd →
        (sysOpenIn orc path s).2.fdt.lookup fd = s.fdt.lookup fd)
    ∧ ((sysOpenIn orc path s).1 = none ∨ (sysOpenIn orc path s).1 = some s.nextFd) := by
  by_cases hok : (path.isSome && orc s.ops.length) = true
  · rw [sysOpenIn_eq_pos orc path s hok]
    exact ⟨by simp, fun fd hfd => lookup_cons_ne _ (by omega), Or.inr rfl⟩
  · rw [sysOpenIn_eq_neg orc path s hok]
    exact ⟨le_refl _, fun fd _ => rfl, Or.inl rfl⟩

/-- The resolver never disturbs already-open descriptors: descriptors below
the entry `nextFd` keep their bindings, `nextFd` grows monotonically, and
the two descriptor out-parameters are each either untouched, unset, or
freshly allocated (at least the entry `nextFd`). -/
theorem hr_pres (orc : Nat → Bool) (args : List String) :
    ∀ (i o : Option Nat) (s : St),
      s.nextFd ≤ (handle_redirection orc args i o s).st.nextFd
      ∧ (∀ fd, fd < s.nextFd →
          (handle_redirection orc args i o s).st.fdt.lookup fd = s.fdt.lookup fd)
      ∧ freshOpt (handle_redirection orc args i o s).in_fd i s.nextFd
      ∧ freshOpt (handle_redirection orc args i o s).out_fd o s.nextFd := by
  induction args with
  | nil =>
    intro i o s
    exact ⟨le_refl _, fun fd _ => rfl, Or.inl rfl, Or.inl rfl⟩
  | cons a rest ih =>
    intro i o s
    by_cases hgt : a = ">"
    case pos =>
      subst hgt
      obtain ⟨hA, hB, hC⟩ := sysOpenOut_facts orc rest.head? s
      set p := sysOpenOut orc rest.head? s with hp
      set s2 : St := if p.1.isNone then p.2.perror "shell" else p.2 with hs2
      have hs2fdt : s2.fdt = p.2.fdt := by
        rw [hs2]; split <;> rfl
      have hs2next : s2.nextFd = p.2.nextFd := by
        rw [hs2]; split <;> rfl
      obtain ⟨ihA, ihB, ihI, ihO⟩ := ih i p.1 s2
      refine ⟨?_, ?_, ?_, ?_⟩
      · show s.nextFd ≤ (handle_redirection orc rest i p.1 s2).st.nextFd
        omega
      · intro fd hfd
        show (handle_redirection orc rest i p.1 s2).st.fdt.lookup fd = s.fdt.lookup fd
        rw [ihB fd (by omega), hs2fdt, hB fd hfd]
      · show freshOpt (handle_redirection orc rest i p.1 s2).in_fd i s.nextFd
        exact freshOpt_weaken ihI (by omega)
      · show freshOpt (handle_redirection orc rest i p.1 s2).out_fd o s.nextFd
        refine freshOpt_step ihO (by omega) ?_ o
        rcases hC with h | h
        · exact Or.inl h
        · exact Or.inr ⟨s.nextFd, h, le_refl _⟩
    case neg =>
      by_cases hlt : a = "<"
      case pos =>
        subst hlt
        obtain ⟨hA, hB, hC⟩ := sysOpenIn_facts orc rest.head? s
        set p := sysOpenIn orc rest.head? s with hp
        set s2 : St := if p.1.isNone then p.2.perror "shell" else p.2 with hs2
        have hs2fdt : s2.fdt = p.2.fdt := by
          rw [hs2]; split <;> rfl
        have hs2next : s2.nextFd = p.2.nextFd := by
          rw [hs2]; split <;> rfl
        obtain ⟨ihA, ihB, ihI, ihO⟩ := ih p.1 o s2
        refine ⟨?_, ?_, ?_, ?_⟩
        · show s.nextFd ≤ (handle_redirection orc rest p.1 o s2).st.nextFd
          omega
        · intro fd hfd
          show (handle_redirection orc rest p.1 o s2).st.fdt.lookup fd = s.fdt.lookup fd
          rw [ihB fd (by omega), hs2fdt, hB fd hfd]
        · show freshOpt (handle_redirection orc rest p.1 o s2).in_fd i s.nextFd
          refine freshOpt_step ihI (by omega) ?_ i
          rcases hC with h | h
          · exact Or.inl h
          · exact Or.inr ⟨s.nextFd, h, le_refl _⟩
        · show freshOpt (handle_redirection orc rest p.1 o s2).out_fd o s.nextFd
          exact freshOpt_weaken ihO (by omega)
      case neg =>
        have heq : handle_redirection orc (a :: rest) i o s =
            ⟨some a :: (handle_redirection orc rest i o s).arr,
             (handle_redirection orc rest i o s).in_fd,
             (handle_redirection orc rest i o s).out_fd,
             (handle_redirection orc rest i o s).st⟩ := by
          rw [handle_redirection, if_neg hgt, if_neg hlt]
        rw [heq]
        exact ih i o s

theorem applyRedir_lookup (x : Option Nat) (dst fd0 : Nat) (sC : St) (hdst : fd0 ≠ dst)
    (hx : ∀ g, x = some g → fd0 ≠ g) :
    (applyRedir x dst sC).fdt.lookup fd0 = sC.fdt.lookup fd0 := by
  cases x with
  | none => rfl
  | some g =>
    show (sysClose g (sysDup2 g dst sC)).fdt.lookup fd0 = _
    rw [sysClose_lookup_ne g fd0 _ (hx g rfl), sysDup2_lookup_ne g dst fd0 sC hdst]

/-- The restore block of the external tail rebinds fds `0` and `1` to the
open file descriptions the snapshot descriptors `p`, `p+1` hold, and the
snapshot closes do not disturb them. -/
theorem restore_tail (sC : St) (p t0 t1 : Nat) (hp : 2 ≤ p)
    (h0 : sC.fdt.lookup p = some t0) (h1 : sC.fdt.lookup (p + 1) = some t1) :
    (sysClose (p + 1) (sysClose p (sysDup2 (p + 1) 1 (sysDup2 p 0 sC)))).fdt.lookup 0 = some t0
    ∧ (sysClose (p + 1) (sysClose p (sysDup2 (p + 1) 1 (sysDup2 p 0 sC)))).fdt.lookup 1
        = some t1 := by
  have e0 : (sysDup2 p 0 sC).fdt.lookup 0 = some t0 := sysDup2_lookup_eq p 0 sC t0 h0
  have e1 : (sysDup2 p 0 sC).fdt.lookup (p + 1) = some t1 := by
    rw [sysDup2_lookup_ne p 0 (p + 1) sC (by omega)]
    exact h1
  have f1 : (sysDup2 (p + 1) 1 (sysDup2 p 0 sC)).fdt.lookup 1 = some t1 :=
    sysDup2_lookup_eq (p + 1) 1 _ t1 e1
  have f0 : (sysDup2 (p + 1) 1 (sysDup2 p 0 sC)).fdt.lookup 0 = some t0 := by
    rw [sysDup2_lookup_ne (p + 1) 1 0 _ (by omega)]
    exact e0
  constructor
  · rw [sysClose_lookup_ne (p + 1) 0 _ (by omega), sysClose_lookup_ne p 0 _ (by omega)]
    exact f0
  · rw [sysClose_lookup_ne (p + 1) 1 _ (by omega), sysClose_lookup_ne p 1 _ (by omega)]
    exact f1

/-- The external tail, run with snapshot descriptors `p`, `p+1` holding open
file descriptions `t0`, `t1` (and every open descriptor below `nextFd`),
leaves fds `0` and `1` bound to `t0` and `t1` — whatever the oracle decides
about the redirection opens, the fork, and the exec. -/
theorem external_dispatch_restores (orc : Nat → Bool) (args : List String)
    (p t0 t1 : Nat) (sB : St) (hp : 2 ≤ p) (hfd : p + 2 ≤ sB.nextFd)
    (hlp : sB.fdt.lookup p = some t0) (hlp1 : sB.fdt.lookup (p + 1) = some t1) :
    (external_dispatch orc args (some p) (some (p + 1)) sB).2.fdt.lookup 0 = some t0
    ∧ (external_dispatch orc args (some p) (some (p + 1)) sB).2.fdt.lookup 1 = some t1 := by
  obtain ⟨hmono, hpr, hfI, hfO⟩ := hr_pres orc args none none sB
  have hIn : (handle_redirection orc args none none sB).in_fd = none
      ∨ ∃ g, (handle_redirection orc args none none sB).in_fd = some g ∧ sB.nextFd ≤ g := by
    rcases hfI with h | h | h
    exacts [Or.inl h, Or.inl h, Or.inr h]
  have hOut : (handle_redirection orc args none none sB).out_fd = none
      ∨ ∃ g, (handle_redirection orc args none none sB).out_fd = some g ∧ sB.nextFd ≤ g := by
    rcases hfO with h | h | h
    exacts [Or.inl h, Or.inl h, Or.inr h]
  simp only [external_dispatch]
  set r := handle_redirection orc args none none sB with hrdef
  have hxin : ∀ g, r.in_fd = some g → ∀ q, q < sB.nextFd → q ≠ g := by
    intro g hg q hq
    rcases hIn with h | ⟨g2, h2, hge⟩
    · rw [h] at hg; cases hg
    · rw [h2] at hg
      injection hg with hg
      omega
  have hxout : ∀ g, r.out_fd = some g → ∀ q, q < sB.nextFd → q ≠ g := by
    intro g hg q hq
    rcases hOut with h | ⟨g2, h2, hge⟩
    · rw [h] at hg; cases hg
    · rw [h2] at hg
      injection hg with hg
      omega
  have hs1p : (applyRedir r.in_fd 0 r.st).fdt.lookup p = some t0 := by
    rw [applyRedir_lookup r.in_fd 0 p r.st (by omega) (fun g hg => hxin g hg p (by omega)),
      hpr p (by omega)]
    exact hlp
  have hs1p1 : (applyRedir r.in_fd 0 r.st).fdt.lookup (p + 1) = some t1 := by
    rw [applyRedir_lookup r.in_fd 0 (p + 1) r.st (by omega)
        (fun g hg => hxin g hg (p + 1) (by omega)),
      hpr (p + 1) (by omega)]
    exact hlp1
  have hs2p : (applyRedir r.out_fd 1 (applyRedir r.in_fd 0 r.st)).fdt.lookup p = some t0 := by
    rw [applyRedir_lookup r.out_fd 1 p _ (by omega) (fun g hg => hxout g hg p (by omega))]
    exact hs1p
  have hs2p1 : (applyRedir r.out_fd 1 (applyRedir r.in_fd 0 r.st)).fdt.lookup (p + 1)
      = some t1 := by
    rw [applyRedir_lookup r.out_fd 1 (p + 1) _ (by omega)
        (fun g hg => hxout g hg (p + 1) (by omega))]
    exact hs1p1
  have hLp : (launch_process orc (argvSeen r.arr)
      (applyRedir r.out_fd 1 (applyRedir r.in_fd 0 r.st))).2.fdt.lookup p = some t0 := by
    rw [launch_process_fdt]
    exact hs2p
  have hLp1 : (launch_process orc (argvSeen r.arr)
      (applyRedir r.out_fd 1 (applyRedir r.in_fd 0 r.st))).2.fdt.lookup (p + 1) = some t1 := by
    rw [launch_process_fdt]
    exact hs2p1
  exact restore_tail _ p t0 t1 hp hLp hLp1

/-- Claim C4: for every dispatch of a non-empty, non-pipeline, non-built-in
command — under every oracle, so in particular when the redirection opens
fail, the fork fails, or the program is not found — `execute_command`
returns with the process's fds `0` and `1` bound to exactly the open file
descriptions they held before the dispatch. -/
theorem C4_streams_restored_after_external (orc : Nat → Bool) (a0 : String)
    (rest : List String) (s : St) (t0 t1 : Nat)
    (hcount : (a0 :: rest).count "|" = 0) (hb : a0 ∉ builtin_str)
    (hl0 : s.fdt.lookup 0 = some t0) (hl1 : s.fdt.lookup 1 = some t1)
    (hnf : 2 ≤ s.nextFd) :
    (execute_command orc (a0 :: rest) s).2.fdt.lookup 0 = some t0
    ∧ (execute_command orc (a0 :: rest) s).2.fdt.lookup 1 = some t1 := by
  have hd0 := sysDup_some 0 s t0 hl0
  have hd1 : sysDup 1 (sysDup 0 s).2 =
      (some (s.nextFd + 1),
       { s with ops := (s.ops ++ [SysOp.dup 0]) ++ [SysOp.dup 1],
                fdt := (s.nextFd + 1, t1) :: (s.nextFd, t0) :: s.fdt,
                nextFd := s.nextFd + 1 + 1 }) := by
    rw [hd0]
    exact sysDup_some 1 _ t1 ((lookup_cons_ne _ (by omega)).trans hl1)
  have hpipe : ¬0 < (a0 :: rest).count "|" := by omega
  have hexec : execute_command orc (a0 :: rest) s =
      external_dispatch orc (a0 :: rest) (some s.nextFd) (some (s.nextFd + 1))
        { s with ops := (s.ops ++ [SysOp.dup 0]) ++ [SysOp.dup 1],
                 fdt := (s.nextFd + 1, t1) :: (s.nextFd, t0) :: s.fdt,
                 nextFd := s.nextFd + 1 + 1 } := by
    simp only [execute_command]
    rw [hd1, hd0]
    rw [if_neg hpipe, if_neg hb]
  rw [hexec]
  refine external_dispatch_restores orc (a0 :: rest) s.nextFd t0 t1 _ hnf
    (by show s.nextFd + 2 ≤ s.nextFd + 1 + 1; omega) ?_ ?_
  · show ((s.nextFd + 1, t1) :: (s.nextFd, t0) :: s.fdt).lookup s.nextFd = some t0
    rw [lookup_cons_ne _ (by omega), lookup_cons_eq]
  · show ((s.nextFd + 1, t1) :: (s.nextFd, t0) :: s.fdt).lookup (s.nextFd + 1) = some t1
    rw [lookup_cons_eq]

/-- Witness for C4: dispatching `["foo"]` (not a built-in, no pipe) from the
initial state — here with the all-success oracle — restores fds `0` and `1`
to the terminal's open file descriptions `0` and `1`. -/
theorem C4_streams_restored_after_external_witness :
    (execute_command orcT ["foo"] initSt).2.fdt.lookup 0 = some 0
    ∧ (execute_command orcT ["foo"] initSt).2.fdt.lookup 1 = some 1 :=
  C4_streams_restored_after_external orcT "foo" [] initSt 0 1 (by decide) (by decide)
    (by decide) (by decide) (by decide)

end Shell
